import Mathlib

/-!
Shallow embedding of the auto-file-organizer repository
(config.py, organizer.py, watcher.py), together with proofs about the
behaviour its specification describes.

Paths are modelled as lists of components; the filesystem rooted at the
organizing target is a pair of lists (regular files and directories),
each path taken relative to the root, mirroring the fact that
organizer.py's file enumeration only ever yields paths beneath the
target.  Fallible operations return their mutated state together with an
Except value standing for a Python exception.
-/

namespace AutoOrg

/-- A filesystem path, as its list of components. -/
abbrev Fpath := List String

/-- config.py: the extension-to-category mapping EXT_MAP (the built-in
default in organizer.py is the same mapping). -/
def EXT_MAP : List (String × String) :=
  [(".jpg", "Images"), (".jpeg", "Images"), (".png", "Images"), (".gif", "Images"),
   (".bmp", "Images"),
   (".pdf", "Documents"), (".docx", "Documents"), (".doc", "Documents"),
   (".txt", "Documents"), (".pptx", "Documents"), (".ppt", "Documents"),
   (".xlsx", "Documents"), (".xls", "Documents"),
   (".zip", "Archives"), (".rar", "Archives"), (".tar", "Archives"), (".gz", "Archives"),
   (".mp4", "Videos"), (".mkv", "Videos"), (".mov", "Videos"),
   (".mp3", "Audio"), (".wav", "Audio"),
   (".py", "Code"), (".cpp", "Code"), (".c", "Code"), (".h", "Code"),
   (".java", "Code"), (".js", "Code"),
   (".exe", "Installers"), (".msi", "Installers")]

/-- config.py: the fallback folder OTHER_FOLDER. -/
def OTHER_FOLDER : String := "Others"

/-- The final component of a path (pathlib name; empty for the bare root). -/
def lastName (p : Fpath) : String := p.getLastD ""

/-- Index of the last '.' in a list of characters (Python str.rfind). -/
def lastDotIdx? (cs : List Char) : Option Nat :=
  match cs.reverse.findIdx? (fun c => c == '.') with
  | some j => some (cs.length - 1 - j)
  | none => none

/-- pathlib PurePath.suffix: the final extension segment of a file name;
empty when the name has no dot, when the dot is leading (dotfiles), or
when the dot is the final character. -/
def suffixOfName (name : String) : String :=
  match lastDotIdx? name.data with
  | some i => if 0 < i ∧ i + 1 < name.data.length then ⟨name.data.drop i⟩ else ""
  | none => ""

/-- pathlib PurePath.stem: the file name without its suffix. -/
def stemOfName (name : String) : String :=
  match lastDotIdx? name.data with
  | some i => if 0 < i ∧ i + 1 < name.data.length then ⟨name.data.take i⟩ else name
  | none => name

/-- str.lower, written as a map over the character list so that it
evaluates inside the kernel (ASCII case folding, as used by the keys). -/
def lowerStr (s : String) : String := ⟨s.data.map Char.toLower⟩

/-- organizer.py classify: look the lower-cased suffix up in the mapping,
falling back to the module-level fallback folder (passed here as the
value of that global, `other`). -/
def classify (file : Fpath) (mapping : List (String × String)) (other : String) : String :=
  (mapping.lookup (lowerStr (suffixOfName (lastName file)))).getD other

/-- Filesystem state rooted at the organizing target: regular files and
directories, each as a root-relative path. -/
structure FS where
  files : List Fpath
  dirs : List Fpath
deriving DecidableEq

/-- Path.exists(): the path names a file or a directory. -/
def FS.existsPath (fs : FS) (p : Fpath) : Bool :=
  decide (p ∈ fs.files) || decide (p ∈ fs.dirs)

/-- The nonempty prefixes of a path: the chain of directories that
mkdir(parents=True) ensures. -/
def prefixesOf : Fpath → List Fpath
  | [] => []
  | x :: xs => [x] :: (prefixesOf xs).map (x :: ·)

/-- Environment oracle: which mkdir calls raise for environmental reasons
(PermissionError on a read-only tree), and which shutil.move calls raise
(permission denied, vanished source, unhandled cross-device error, ...). -/
structure Env where
  mkdirFails : Fpath → Bool
  moveFails : Fpath → Fpath → Bool

/-- The directory chain added when mkdir(parents=True, exist_ok=True)
succeeds: every missing ancestor of the argument (the argument is already
the parent of the destination). -/
def FS.applyMkdir (fs : FS) (d : Fpath) : FS :=
  { fs with dirs := fs.dirs ++ (prefixesOf d).filter (fun q => !(decide (q ∈ fs.dirs))) }

/-- dst.parent.mkdir(parents=True, exist_ok=True): exist_ok tolerates
only existing directories, so the call raises when a regular file
occupies the target or one of its ancestors (FileExistsError /
NotADirectoryError), or when the environment denies creation
(PermissionError); on success every missing ancestor directory is added.
On failure nothing is created: when a regular file blocks the chain, its
own ancestors exist already. -/
def mkdirParents (env : Env) (fs : FS) (d : Fpath) : Except String FS :=
  if (prefixesOf d).any (fun q => decide (q ∈ fs.files)) then Except.error "mkdir failed"
  else if env.mkdirFails d then Except.error "mkdir failed"
  else Except.ok (fs.applyMkdir d)

/-- One logged move, the observable behaviour of safe_move: the source,
the requested destination, the final destination, and whether the move
was only simulated (the DRY log line). -/
structure MoveOutcome where
  src : Fpath
  requested : Fpath
  final : Fpath
  simulated : Bool
deriving DecidableEq

/-- The i-th collision candidate of safe_move:
dst.with_name of the stem, followed by the parenthesised index, followed
by the suffix. -/
def candidate (dst : Fpath) (i : Nat) : Fpath :=
  dst.dropLast ++
    [stemOfName (lastName dst) ++ "(" ++ Nat.repr i ++ ")" ++ suffixOfName (lastName dst)]

/-- The collision while-loop of safe_move from candidate index i on, with
fuel bounding the number of candidates still to be scanned. -/
def searchFrom (fs : FS) (dst : Fpath) : Nat → Nat → Fpath
  | i, 0 => candidate dst i
  | i, fuel + 1 =>
      if fs.existsPath (candidate dst i) then searchFrom fs dst (i + 1) fuel
      else candidate dst i

/-- The collision loop of safe_move: the first path among
dst, candidate 1, candidate 2, ... that does not exist.  The fuel exceeds
the number of existing paths, which is proved sufficient below. -/
def resolveDst (fs : FS) (dst : Fpath) : Fpath :=
  if fs.existsPath dst then searchFrom fs dst 1 (fs.files.length + fs.dirs.length + 1)
  else dst

/-- organizer.py safe_move.  Note that the parent directories are created
before the dry-run test, and that this creation can itself raise (also in
dry-run mode).  Returns the filesystem after whatever mutations happened
together with the logged outcome, or with the uncaught exception raised
by mkdir or by the underlying move. -/
def safe_move (env : Env) (fs : FS) (src dst : Fpath) (dry_run : Bool) :
    FS × Except String MoveOutcome :=
  match mkdirParents env fs dst.dropLast with
  | Except.error e => (fs, Except.error e)
  | Except.ok fs1 =>
    if dry_run then
      (fs1, Except.ok ⟨src, dst, dst, true⟩)
    else
      let fdst := resolveDst fs1 dst
      if env.moveFails src fdst then
        (fs1, Except.error "move failed")
      else
        ({ fs1 with files := fs1.files.erase src ++ [fdst] }, Except.ok ⟨src, dst, fdst, false⟩)

/-- organizer.py: dest_folder_names, the set of mapping values together
with the fallback folder (membership is all that matters). -/
def destFolderNames (mapping : List (String × String)) (other : String) : List String :=
  mapping.map Prod.snd ++ [other]

/-- The skip test of the organize loop: the relative path is nonempty and
its first component is a destination-folder name. -/
def isSkipped (mapping : List (String × String)) (other : String) : Fpath → Bool
  | [] => false
  | d :: _ => decide (d ∈ destFolderNames mapping other)

/-- organizer.py find_files: every file when recursive, otherwise only
the direct children of the root. -/
def find_files (fs : FS) (recursive : Bool) : List Fpath :=
  if recursive then fs.files else fs.files.filter (fun p => decide (p.length = 1))

/-- Destination construction of the organize loop: the relative parent is
preserved beneath the category exactly when recursing from a subfolder. -/
def destinationFor (recursive : Bool) (folder : String) (f : Fpath) : Fpath :=
  if recursive && !(decide (f.dropLast = [])) then folder :: (f.dropLast ++ [lastName f])
  else [folder, lastName f]

/-- The per-file loop of organize, over the snapshot list of enumerated
files (the filesystem mutates while the snapshot stays fixed).  In this
root-relative model relative_to always succeeds for enumerated files, so
the except-branch around it is unreachable; an uncaught exception from
safe_move stops the loop and is returned as the third component. -/
def organizeFrom (env : Env) (mapping : List (String × String)) (other : String)
    (dry_run recursive : Bool) :
    List Fpath → FS → List MoveOutcome → FS × List MoveOutcome × Option String
  | [], fs, outs => (fs, outs, none)
  | f :: rest, fs, outs =>
    if isSkipped mapping other f then
      organizeFrom env mapping other dry_run recursive rest fs outs
    else
      match safe_move env fs f (destinationFor recursive (classify f mapping other) f) dry_run with
      | (fs1, Except.ok out) =>
          organizeFrom env mapping other dry_run recursive rest fs1 (outs ++ [out])
      | (fs1, Except.error e) => (fs1, outs, some e)

/-- organizer.py organize over a valid root (root validation and the
empty-enumeration early return are behaviourally the identity). -/
def organize (env : Env) (fs : FS) (mapping : List (String × String)) (other : String)
    (dry_run recursive : Bool) : FS × List MoveOutcome × Option String :=
  organizeFrom env mapping other dry_run recursive (find_files fs recursive) fs []

/-- Path.relative_to: strip the root prefix, failing when the path is not
under the root. -/
def relativeTo (root p : Fpath) : Option Fpath :=
  if root.isPrefixOf p then some (p.drop root.length) else none

/-- watcher.py DebouncedHandler: the ignore set, the EXT_MAP values
together with the literal "Others". -/
def watcherDestFolders : List String := EXT_MAP.map Prod.snd ++ ["Others"]

/-- watcher.py DebouncedHandler._should_ignore; a failing relative_to is
caught and answered with False, that is, the event is not ignored. -/
def should_ignore (target : Fpath) (p : Fpath) : Bool :=
  match relativeTo target p with
  | none => false
  | some [] => false
  | some (d :: _) => decide (d ∈ watcherDestFolders)

/-- watcher.py on_any_event: the event schedules a run iff it is not a
directory event and not ignored. -/
def watcherReacts (target : Fpath) (isDir : Bool) (p : Fpath) : Bool :=
  !isDir && !(should_ignore target p)

/-- The per-file eligibility decision of the organize loop, phrased on an
absolute path as the Path Filter of the specification: the relative path
must be computable (the try-except around relative_to skips otherwise)
and must not start with a destination-folder name. -/
def passEligible (target : Fpath) (mapping : List (String × String)) (other : String)
    (p : Fpath) : Bool :=
  match relativeTo target p with
  | none => false
  | some rel => !(isSkipped mapping other rel)

/-- watcher.py _schedule_run as a discrete-event semantics: each eligible
event cancels any pending timer and arms a fresh one a full debounce
interval later; an armed timer fires unless a later event arrives
strictly before its fire time.  Given the increasing times of the
eligible events, this lists the times at which the organizer runs. -/
def fireTimes (debounce : ℚ) : List ℚ → List ℚ
  | [] => []
  | [t] => [t + debounce]
  | t :: t1 :: ts =>
      if t1 < t + debounce then fireTimes debounce (t1 :: ts)
      else (t + debounce) :: fireTimes debounce (t1 :: ts)

/-! ### Decimal rendering: a decode round-trip for Nat.repr -/

/-- Numeric value of a decimal digit character. -/
def decDigit (c : Char) : Nat := c.toNat - 48

/-- Decimal value of a list of digit characters. -/
def decValue (cs : List Char) : Nat := cs.foldl (fun a c => 10 * a + decDigit c) 0

theorem toDigitsCore_shift (fuel : Nat) : ∀ (n : Nat) (ds : List Char),
    Nat.toDigitsCore 10 fuel n ds = Nat.toDigitsCore 10 fuel n [] ++ ds := by
  induction fuel with
  | zero => intro n ds; simp [Nat.toDigitsCore]
  | succ fuel ih =>
    intro n ds
    simp only [Nat.toDigitsCore]
    by_cases h : n / 10 = 0
    · simp [h]
    · simp only [h, if_false]
      rw [ih (n / 10) (Nat.digitChar (n % 10) :: ds), ih (n / 10) [Nat.digitChar (n % 10)]]
      simp

theorem decDigit_digitChar : ∀ m, m < 10 → decDigit (Nat.digitChar m) = m := by decide

theorem decValue_toDigitsCore (fuel : Nat) : ∀ n : Nat, n < fuel →
    decValue (Nat.toDigitsCore 10 fuel n []) = n := by
  induction fuel with
  | zero => intro n h; omega
  | succ fuel ih =>
    intro n h
    simp only [Nat.toDigitsCore]
    by_cases h0 : n / 10 = 0
    · have hn : n < 10 := by omega
      have hmod : n % 10 = n := Nat.mod_eq_of_lt hn
      simp [decValue, h0, hmod, decDigit_digitChar n hn]
    · simp only [h0, if_false]
      rw [toDigitsCore_shift]
      have hpos : 0 < n := by
        rcases Nat.eq_zero_or_pos n with h1 | h1
        · exfalso; apply h0; simp [h1]
        · exact h1
      have hlt : n / 10 < fuel := by
        have := Nat.div_lt_self hpos (by norm_num : 1 < 10)
        omega
      have ihv := ih (n / 10) hlt
      simp only [decValue, List.foldl_append] at ihv ⊢
      rw [ihv]
      have hmod : n % 10 < 10 := Nat.mod_lt n (by norm_num)
      simp [decDigit_digitChar (n % 10) hmod]
      omega

theorem repr_data (n : Nat) : (Nat.repr n).data = Nat.toDigitsCore 10 (n + 1) n [] := rfl

theorem decValue_repr_data (n : Nat) : decValue (Nat.repr n).data = n := by
  rw [repr_data]
  exact decValue_toDigitsCore (n + 1) n (Nat.lt_succ_self n)

theorem natRepr_injective {m n : Nat} (h : Nat.repr m = Nat.repr n) : m = n := by
  have := congrArg (fun s => decValue s.data) h
  simpa [decValue_repr_data] using this

theorem natRepr_data_ne_nil (n : Nat) : (Nat.repr n).data ≠ [] := by
  rw [repr_data]
  simp only [Nat.toDigitsCore]
  by_cases h : n / 10 = 0
  · simp [h]
  · simp only [h, if_false]
    rw [toDigitsCore_shift]
    simp

/-! ### Facts about names, candidates and the collision loop -/

theorem stem_append_suffix (name : String) : stemOfName name ++ suffixOfName name = name := by
  unfold stemOfName suffixOfName
  cases hld : lastDotIdx? name.data with
  | none =>
    apply String.ext
    simp
  | some i =>
    by_cases hc : 0 < i ∧ i + 1 < name.data.length
    · simp only [hc, if_pos]
      apply String.ext
      simp only [String.data_append]
      exact List.take_append_drop i name.data
    · simp only [hc, if_neg, if_false]
      apply String.ext
      simp

theorem lastName_eq_getLast {p : Fpath} (h : p ≠ []) : lastName p = p.getLast h := by
  unfold lastName
  rw [List.getLastD_eq_getLast?, List.getLast?_eq_getLast p h]
  rfl

theorem dropLast_append_lastName {p : Fpath} (h : p ≠ []) : p.dropLast ++ [lastName p] = p := by
  rw [lastName_eq_getLast h]
  exact List.dropLast_concat_getLast h

theorem candidate_inj {dst : Fpath} {i j : Nat} (h : candidate dst i = candidate dst j) :
    i = j := by
  unfold candidate at h
  have h1 := List.append_cancel_left h
  have h2 : stemOfName (lastName dst) ++ "(" ++ Nat.repr i ++ ")" ++ suffixOfName (lastName dst)
      = stemOfName (lastName dst) ++ "(" ++ Nat.repr j ++ ")" ++ suffixOfName (lastName dst) := by
    exact List.singleton_injective h1
  apply natRepr_injective
  apply String.ext
  have hd := congrArg String.data h2
  simp only [String.data_append] at hd
  exact List.append_cancel_left (List.append_cancel_right (List.append_cancel_right hd))

theorem candidate_ne_dst {dst : Fpath} (hdst : dst ≠ []) (i : Nat) : candidate dst i ≠ dst := by
  intro h
  unfold candidate at h
  conv at h => rhs; rw [← dropLast_append_lastName hdst]
  have h1 := List.singleton_injective (List.append_cancel_left h)
  have hlen := congrArg (fun s => s.data.length) h1
  have hsplit := congrArg (fun s => s.data.length) (stem_append_suffix (lastName dst))
  simp only [String.data_append, List.length_append] at hlen hsplit
  have hne := natRepr_data_ne_nil i
  have : 0 < (Nat.repr i).data.length := List.length_pos.mpr hne
  simp only [show ("(" : String).data.length = 1 from rfl,
    show (")" : String).data.length = 1 from rfl] at hlen
  omega

theorem candidate_dropLast (dst : Fpath) (i : Nat) : (candidate dst i).dropLast = dst.dropLast := by
  unfold candidate
  simp

theorem searchFrom_isCandidate (fs : FS) (dst : Fpath) :
    ∀ fuel i, ∃ k, searchFrom fs dst i fuel = candidate dst (i + k) := by
  intro fuel
  induction fuel with
  | zero => intro i; exact ⟨0, rfl⟩
  | succ fuel ih =>
    intro i
    unfold searchFrom
    by_cases h : fs.existsPath (candidate dst i)
    · simp only [h, if_pos]
      obtain ⟨k, hk⟩ := ih (i + 1)
      exact ⟨k + 1, by rw [hk]; congr 1; omega⟩
    · simp only [h, if_neg, if_false]
      exact ⟨0, rfl⟩

theorem searchFrom_spec (fs : FS) (dst : Fpath) :
    ∀ fuel i, (∃ k, k < fuel ∧ fs.existsPath (candidate dst (i + k)) = false) →
      ∃ k, k < fuel ∧ searchFrom fs dst i fuel = candidate dst (i + k) ∧
        fs.existsPath (candidate dst (i + k)) = false ∧
        ∀ m, m < k → fs.existsPath (candidate dst (i + m)) = true := by
  intro fuel
  induction fuel with
  | zero =>
    intro i ⟨k, hk, _⟩
    omega
  | succ fuel ih =>
    intro i ⟨k, hk, hfree⟩
    by_cases h : fs.existsPath (candidate dst i)
    · have hk0 : k ≠ 0 := by
        intro h0
        rw [h0] at hfree
        simp at hfree
        rw [hfree] at h
        exact Bool.noConfusion h
      obtain ⟨k1, rfl⟩ := Nat.exists_eq_succ_of_ne_zero hk0
      have hprev : ∃ k, k < fuel ∧ fs.existsPath (candidate dst (i + 1 + k)) = false := by
        refine ⟨k1, by omega, ?_⟩
        rw [show i + 1 + k1 = i + (k1 + 1) by omega]
        exact hfree
      obtain ⟨k2, hk2, hval, hfree2, hall⟩ := ih (i + 1) hprev
      refine ⟨k2 + 1, by omega, ?_, ?_, ?_⟩
      · unfold searchFrom
        simp only [h, if_pos]
        rw [hval]
        congr 1
        omega
      · rw [show i + (k2 + 1) = i + 1 + k2 by omega]
        exact hfree2
      · intro m hm
        cases m with
        | zero => simpa using h
        | succ m1 =>
          rw [show i + (m1 + 1) = i + 1 + m1 by omega]
          exact hall m1 (by omega)
    · refine ⟨0, by omega, ?_, ?_, ?_⟩
      · unfold searchFrom
        simp [h]
      · simpa using h
      · intro m hm; omega

theorem exists_free_candidate (fs : FS) (dst : Fpath) :
    ∃ k, k < fs.files.length + fs.dirs.length + 1 ∧
      fs.existsPath (candidate dst (1 + k)) = false := by
  by_contra hall
  push_neg at hall
  have hmem : ∀ k, k < fs.files.length + fs.dirs.length + 1 →
      candidate dst (1 + k) ∈ fs.files ++ fs.dirs := by
    intro k hk
    have h1 := hall k hk
    have h2 : fs.existsPath (candidate dst (1 + k)) = true := by
      cases h3 : fs.existsPath (candidate dst (1 + k)) with
      | false => exact absurd h3 h1
      | true => rfl
    unfold FS.existsPath at h2
    simp only [Bool.or_eq_true, decide_eq_true_eq] at h2
    rw [List.mem_append]
    exact h2
  have hsub : (Finset.range (fs.files.length + fs.dirs.length + 1)).image
      (fun k => candidate dst (1 + k)) ⊆ (fs.files ++ fs.dirs).toFinset := by
    intro p hp
    rw [Finset.mem_image] at hp
    obtain ⟨k, hk, rfl⟩ := hp
    rw [List.mem_toFinset]
    exact hmem k (Finset.mem_range.mp hk)
  have hcard1 : ((Finset.range (fs.files.length + fs.dirs.length + 1)).image
      (fun k => candidate dst (1 + k))).card = fs.files.length + fs.dirs.length + 1 := by
    rw [Finset.card_image_of_injOn, Finset.card_range]
    intro a _ b _ hab
    have := candidate_inj hab
    omega
  have hcard2 := Finset.card_le_card hsub
  have hcard3 := List.toFinset_card_le (l := fs.files ++ fs.dirs)
  rw [hcard1] at hcard2
  rw [List.length_append] at hcard3
  omega

theorem resolveDst_fresh (fs : FS) (dst : Fpath) :
    fs.existsPath (resolveDst fs dst) = false := by
  unfold resolveDst
  by_cases h : fs.existsPath dst
  · simp only [h, if_pos]
    obtain ⟨k, hk, hfree⟩ := exists_free_candidate fs dst
    obtain ⟨k2, _, hval, hfree2, _⟩ :=
      searchFrom_spec fs dst (fs.files.length + fs.dirs.length + 1) 1 ⟨k, hk, hfree⟩
    rw [hval]
    exact hfree2
  · rw [if_neg h]
    exact Bool.of_not_eq_true h

theorem resolveDst_shape (fs : FS) (dst : Fpath) :
    resolveDst fs dst = dst ∨ ∃ i, 1 ≤ i ∧ resolveDst fs dst = candidate dst i := by
  unfold resolveDst
  by_cases h : fs.existsPath dst
  · simp only [h, if_pos]
    obtain ⟨k, hk⟩ := searchFrom_isCandidate fs dst (fs.files.length + fs.dirs.length + 1) 1
    exact Or.inr ⟨1 + k, by omega, hk⟩
  · simp [h]

theorem prefixesOf_length_le {q d : Fpath} (h : q ∈ prefixesOf d) : q.length ≤ d.length := by
  induction d generalizing q with
  | nil => simp [prefixesOf] at h
  | cons x xs ih =>
    simp only [prefixesOf, List.mem_cons, List.mem_map] at h
    rcases h with rfl | ⟨r, hr, rfl⟩
    · simp
    · simpa using ih hr

theorem applyMkdir_files (fs : FS) (d : Fpath) : (fs.applyMkdir d).files = fs.files := rfl

theorem existsPath_applyMkdir (fs : FS) (d p : Fpath) (h : d.length < p.length) :
    (fs.applyMkdir d).existsPath p = fs.existsPath p := by
  unfold FS.existsPath FS.applyMkdir
  have hnot : p ∉ (prefixesOf d).filter (fun q => !(decide (q ∈ fs.dirs))) := by
    intro hmem
    have := prefixesOf_length_le (List.mem_of_mem_filter hmem)
    omega
  simp [List.mem_append, hnot]

/-! ### Behaviour of safe_move and the organize loop -/

theorem existsPath_true_iff (fs : FS) (p : Fpath) :
    fs.existsPath p = true ↔ p ∈ fs.files ∨ p ∈ fs.dirs := by
  simp [FS.existsPath]

theorem existsPath_false_iff (fs : FS) (p : Fpath) :
    fs.existsPath p = false ↔ p ∉ fs.files ∧ p ∉ fs.dirs := by
  simp [FS.existsPath]

theorem existsPath_applyMkdir_mono (fs : FS) (d p : Fpath) (h : fs.existsPath p = true) :
    (fs.applyMkdir d).existsPath p = true := by
  rw [existsPath_true_iff] at h ⊢
  unfold FS.applyMkdir
  rcases h with h | h
  · exact Or.inl h
  · exact Or.inr (List.mem_append_left _ h)

theorem candidate_ne_nil (dst : Fpath) (i : Nat) : candidate dst i ≠ [] := by
  unfold candidate
  simp

theorem candidate_length {dst : Fpath} (hdst : dst ≠ []) (i : Nat) :
    (candidate dst i).length = dst.length := by
  unfold candidate
  rw [List.length_append, List.length_dropLast]
  have : 0 < dst.length := List.length_pos.mpr hdst
  simp
  omega

theorem resolveDst_dropLast (fs : FS) (dst : Fpath) :
    (resolveDst fs dst).dropLast = dst.dropLast := by
  rcases resolveDst_shape fs dst with h | ⟨i, _, h⟩
  · rw [h]
  · rw [h, candidate_dropLast]

theorem resolveDst_ne_nil (fs : FS) {dst : Fpath} (hdst : dst ≠ []) :
    resolveDst fs dst ≠ [] := by
  rcases resolveDst_shape fs dst with h | ⟨i, _, h⟩
  · rw [h]; exact hdst
  · rw [h]; exact candidate_ne_nil dst i

theorem resolveDst_head (fs : FS) (folder : String) {f : Fpath} (hf : f ≠ []) :
    ∃ q, resolveDst fs (folder :: f) = folder :: q := by
  rcases resolveDst_shape fs (folder :: f) with h | ⟨i, _, h⟩
  · exact ⟨f, h⟩
  · rw [h]
    unfold candidate
    obtain ⟨y, l, rfl⟩ : ∃ y l, f = y :: l := by
      cases f with
      | nil => exact absurd rfl hf
      | cons y l => exact ⟨y, l, rfl⟩
    rw [show (folder :: y :: l).dropLast = folder :: (y :: l).dropLast from rfl]
    exact ⟨_, rfl⟩

theorem mkdirParents_ok {env : Env} {fs : FS} {d : Fpath} {fs1 : FS}
    (h : mkdirParents env fs d = Except.ok fs1) : fs1 = fs.applyMkdir d := by
  unfold mkdirParents at h
  by_cases h1 : (prefixesOf d).any (fun q => decide (q ∈ fs.files))
  · rw [if_pos h1] at h
    exact Except.noConfusion h
  · rw [if_neg h1] at h
    by_cases h2 : env.mkdirFails d
    · rw [if_pos h2] at h
      exact Except.noConfusion h
    · rw [if_neg h2] at h
      injection h with h
      exact h.symm

theorem mkdirParents_conds {env : Env} {fs : FS} {d : Fpath}
    (hfile : ∀ q ∈ prefixesOf d, q ∉ fs.files) (henv : env.mkdirFails d = false) :
    mkdirParents env fs d = Except.ok (fs.applyMkdir d) := by
  unfold mkdirParents
  have h1 : ((prefixesOf d).any (fun q => decide (q ∈ fs.files))) ≠ true := by
    intro hcontra
    rw [List.any_eq_true] at hcontra
    obtain ⟨q, hq, hmem⟩ := hcontra
    exact hfile q hq (by simpa using hmem)
  rw [if_neg h1, if_neg (by rw [henv]; exact Bool.false_ne_true)]

theorem safe_move_mkdir_fail {env : Env} {fs : FS} {dst : Fpath} {e : String}
    (src : Fpath) (dry : Bool) (h : mkdirParents env fs dst.dropLast = Except.error e) :
    safe_move env fs src dst dry = (fs, Except.error e) := by
  unfold safe_move
  rw [h]

theorem safe_move_dry_ok {env : Env} {fs : FS} {dst : Fpath} {fs1 : FS} (src : Fpath)
    (h : mkdirParents env fs dst.dropLast = Except.ok fs1) :
    safe_move env fs src dst true = (fs1, Except.ok ⟨src, dst, dst, true⟩) := by
  unfold safe_move
  rw [h]
  rfl

theorem safe_move_real_ok {env : Env} {fs : FS} {dst : Fpath} {fs1 : FS} (src : Fpath)
    (h : mkdirParents env fs dst.dropLast = Except.ok fs1) :
    safe_move env fs src dst false =
      (if env.moveFails src (resolveDst fs1 dst) then
        (fs1, Except.error "move failed")
      else
        ({ fs1 with files := fs1.files.erase src ++ [resolveDst fs1 dst] },
          Except.ok ⟨src, dst, resolveDst fs1 dst, false⟩)) := by
  unfold safe_move
  rw [h]
  rfl

theorem destinationFor_shape (recursive : Bool) (folder : String) (f : Fpath) :
    ∃ q, q ≠ [] ∧ destinationFor recursive folder f = folder :: q := by
  unfold destinationFor
  by_cases h : recursive && !(decide (f.dropLast = []))
  · rw [if_pos h]
    exact ⟨f.dropLast ++ [lastName f], by simp, rfl⟩
  · rw [if_neg h]
    exact ⟨[lastName f], by simp, rfl⟩

theorem destinationFor_eq (recursive : Bool) (folder : String) {f : Fpath} (hf : f ≠ [])
    (hlen : recursive = true ∨ f.length = 1) :
    destinationFor recursive folder f = folder :: f := by
  unfold destinationFor
  by_cases h : recursive && !(decide (f.dropLast = []))
  · rw [if_pos h]
    rw [dropLast_append_lastName hf]
  · rw [if_neg h]
    obtain ⟨x, rfl⟩ : ∃ x, f = [x] := by
      rcases hlen with hrec | hone
      · rw [hrec] at h
        simp only [Bool.true_and, Bool.not_eq_true', decide_eq_false_iff_not,
          Decidable.not_not] at h
        cases f with
        | nil => exact absurd rfl hf
        | cons y l =>
          cases l with
          | nil => exact ⟨y, rfl⟩
          | cons z m => simp [List.dropLast] at h
      · cases f with
        | nil => exact absurd rfl hf
        | cons y l =>
          cases l with
          | nil => exact ⟨y, rfl⟩
          | cons z m => simp at hone
    rfl

theorem lookup_mem_values {k c : String} {mapping : List (String × String)}
    (h : mapping.lookup k = some c) : c ∈ mapping.map Prod.snd := by
  obtain ⟨l₁, l₂, rfl, -⟩ := List.lookup_eq_some_iff.mp h
  simp

theorem classify_mem_destFolderNames (f : Fpath) (mapping : List (String × String))
    (other : String) : classify f mapping other ∈ destFolderNames mapping other := by
  unfold classify destFolderNames
  cases h : mapping.lookup (lowerStr (suffixOfName (lastName f))) with
  | none => simp
  | some c =>
    simp only [Option.getD_some]
    exact List.mem_append_left _ (lookup_mem_values h)

theorem mem_find_files {fs : FS} {recursive : Bool} {p : Fpath} :
    p ∈ find_files fs recursive ↔ p ∈ fs.files ∧ (recursive = true ∨ p.length = 1) := by
  unfold find_files
  cases recursive with
  | true => simp
  | false => simp

theorem find_files_nodup {fs : FS} {recursive : Bool} (h : fs.files.Nodup) :
    (find_files fs recursive).Nodup := by
  unfold find_files
  cases recursive with
  | true => simpa using h
  | false => simpa using h.filter _

/-- Any path already starting with a destination-folder name survives a
whole pass untouched: it is never a move source, and real moves only land
on paths that did not exist. -/
theorem organizeFrom_keeps_skipped (env : Env) (mapping : List (String × String))
    (other : String) (dry rec : Bool) :
    ∀ (l : List Fpath) (fs : FS) (outs : List MoveOutcome) (p : Fpath),
      isSkipped mapping other p = true → p ∈ fs.files →
      p ∈ (organizeFrom env mapping other dry rec l fs outs).1.files := by
  intro l
  induction l with
  | nil => intro fs outs p _ hmem; exact hmem
  | cons f rest ih =>
    intro fs outs p hskip hmem
    rw [organizeFrom]
    by_cases hf : isSkipped mapping other f
    · rw [if_pos hf]
      exact ih fs outs p hskip hmem
    · rw [if_neg hf]
      have hne : p ≠ f := by
        intro h
        rw [h] at hskip
        exact hf hskip
      cases hmk : mkdirParents env fs
          (destinationFor rec (classify f mapping other) f).dropLast with
      | error e =>
        rw [safe_move_mkdir_fail f dry hmk]
        exact hmem
      | ok fs1 =>
        have hfiles : fs1.files = fs.files := by rw [mkdirParents_ok hmk]; rfl
        cases dry with
        | true =>
          rw [safe_move_dry_ok f hmk]
          apply ih _ _ p hskip
          rw [hfiles]
          exact hmem
        | false =>
          rw [safe_move_real_ok f hmk]
          by_cases hfail : env.moveFails f (resolveDst fs1
              (destinationFor rec (classify f mapping other) f))
          · rw [if_pos hfail]
            show p ∈ fs1.files
            rw [hfiles]
            exact hmem
          · rw [if_neg hfail]
            apply ih _ _ p hskip
            apply List.mem_append_left
            apply (List.mem_erase_of_ne hne).mpr
            rw [hfiles]
            exact hmem

/-- When every enumerated file is skipped, the loop does nothing at all. -/
theorem organizeFrom_all_skipped (env : Env) (mapping : List (String × String))
    (other : String) (dry rec : Bool) :
    ∀ (l : List Fpath) (fs : FS) (outs : List MoveOutcome),
      (∀ f ∈ l, isSkipped mapping other f = true) →
      organizeFrom env mapping other dry rec l fs outs = (fs, outs, none) := by
  intro l
  induction l with
  | nil => intro fs outs _; rfl
  | cons f rest ih =>
    intro fs outs hall
    rw [organizeFrom, if_pos (hall f (List.mem_cons_self f rest))]
    exact ih fs outs (fun g hg => hall g (List.mem_cons_of_mem f hg))

/-- Dry-run behaviour of the loop: the file list never changes, and every
reported outcome is simulated with the requested destination.  (A dry run
can still raise — out of mkdir — which stops the loop early.) -/
theorem organizeFrom_dry (env : Env) (mapping : List (String × String)) (other : String)
    (rec : Bool) :
    ∀ (l : List Fpath) (fs : FS) (outs : List MoveOutcome),
      (organizeFrom env mapping other true rec l fs outs).1.files = fs.files ∧
      (∀ o ∈ (organizeFrom env mapping other true rec l fs outs).2.1,
        o ∈ outs ∨ (o.simulated = true ∧ o.final = o.requested)) := by
  intro l
  induction l with
  | nil =>
    intro fs outs
    exact ⟨rfl, fun o ho => Or.inl ho⟩
  | cons f rest ih =>
    intro fs outs
    rw [organizeFrom]
    by_cases hf : isSkipped mapping other f
    · rw [if_pos hf]
      exact ih fs outs
    · rw [if_neg hf]
      cases hmk : mkdirParents env fs
          (destinationFor rec (classify f mapping other) f).dropLast with
      | error e =>
        rw [safe_move_mkdir_fail f true hmk]
        exact ⟨rfl, fun o ho => Or.inl ho⟩
      | ok fs1 =>
        have hfiles : fs1.files = fs.files := by rw [mkdirParents_ok hmk]; rfl
        rw [safe_move_dry_ok f hmk]
        obtain ⟨h1, h3⟩ := ih fs1
          (outs ++ [⟨f, destinationFor rec (classify f mapping other) f,
            destinationFor rec (classify f mapping other) f, true⟩])
        refine ⟨by rw [h1, hfiles], ?_⟩
        intro o ho
        rcases h3 o ho with hmem | hgood
        · rcases List.mem_append.mp hmem with hmem | hmem
          · exact Or.inl hmem
          · right
            rcases List.mem_singleton.mp hmem with rfl
            exact ⟨rfl, rfl⟩
        · exact Or.inr hgood

theorem isSkipped_cons (mapping : List (String × String)) (other : String) (d : String)
    (q : Fpath) : isSkipped mapping other (d :: q) = decide (d ∈ destFolderNames mapping other) :=
  rfl

/-- Run-one invariant for idempotence: after a successful real pass, every
file the next pass would enumerate starts with a destination-folder name. -/
theorem organizeFrom_preserves (env : Env) (mapping : List (String × String))
    (other : String) (rec : Bool) :
    ∀ (l : List Fpath) (fs : FS) (outs : List MoveOutcome),
      fs.files.Nodup →
      (∀ p ∈ fs.files, p ≠ []) →
      l.Nodup →
      (∀ f ∈ l, f ≠ [] ∧ (rec = true ∨ f.length = 1)) →
      (∀ p ∈ fs.files, (rec = true ∨ p.length = 1) →
        (isSkipped mapping other p = true ∨ p ∈ l)) →
      (organizeFrom env mapping other false rec l fs outs).2.2 = none →
      ∀ p ∈ (organizeFrom env mapping other false rec l fs outs).1.files,
        (rec = true ∨ p.length = 1) → isSkipped mapping other p = true := by
  intro l
  induction l with
  | nil =>
    intro fs outs _ _ _ _ hinv _ p hp hlen
    rcases hinv p hp hlen with h | h
    · exact h
    · simp at h
  | cons f rest ih =>
    intro fs outs hnd hwf hlnd hlwf hinv herr
    by_cases hf : isSkipped mapping other f
    · rw [organizeFrom, if_pos hf] at herr ⊢
      apply ih fs outs hnd hwf hlnd.of_cons
        (fun g hg => hlwf g (List.mem_cons_of_mem f hg)) ?_ herr
      intro q hq hqlen
      rcases hinv q hq hqlen with h | h
      · exact Or.inl h
      · rcases List.mem_cons.mp h with rfl | h
        · exact Or.inl hf
        · exact Or.inr h
    · have hffs : f ≠ [] := (hlwf f (List.mem_cons_self f rest)).1
      have hflen := (hlwf f (List.mem_cons_self f rest)).2
      have hdsteq : destinationFor rec (classify f mapping other) f
          = classify f mapping other :: f := destinationFor_eq rec _ hffs hflen
      set dst := destinationFor rec (classify f mapping other) f with hdst
      cases hmk : mkdirParents env fs dst.dropLast with
      | error e =>
        rw [organizeFrom, if_neg hf, safe_move_mkdir_fail f false hmk] at herr
        simp at herr
      | ok fs1 =>
        have hfs1 : fs1 = fs.applyMkdir dst.dropLast := mkdirParents_ok hmk
        set fdst := resolveDst fs1 dst with hfdst
        by_cases hfail : env.moveFails f fdst
        · rw [organizeFrom, if_neg hf, safe_move_real_ok f hmk, if_pos hfail] at herr
          simp at herr
        · have heq : organizeFrom env mapping other false rec (f :: rest) fs outs
              = organizeFrom env mapping other false rec rest
                { fs1 with files := fs1.files.erase f ++ [fdst] }
                (outs ++ [⟨f, dst, fdst, false⟩]) := by
            rw [organizeFrom, if_neg hf, safe_move_real_ok f hmk, if_neg hfail]
          rw [heq] at herr ⊢
          have hfiles1 : fs1.files = fs.files := by rw [hfs1]; rfl
          have hfresh : fdst ∉ fs.files := by
            have hx := resolveDst_fresh fs1 dst
            rw [← hfdst, existsPath_false_iff] at hx
            rw [← hfiles1]
            exact hx.1
          have hdstne : dst ≠ [] := by rw [hdsteq]; exact List.cons_ne_nil _ _
          have hfdne : fdst ≠ [] := by rw [hfdst]; exact resolveDst_ne_nil fs1 hdstne
          have hskipdst : isSkipped mapping other fdst = true := by
            obtain ⟨q, hq⟩ : ∃ q, fdst = classify f mapping other :: q := by
              rw [hfdst, hdsteq]
              exact resolveDst_head fs1 (classify f mapping other) hffs
            rw [hq, isSkipped_cons]
            simpa using classify_mem_destFolderNames f mapping other
          apply ih _ _ ?_ ?_ hlnd.of_cons
            (fun g hg => hlwf g (List.mem_cons_of_mem f hg)) ?_ herr
          · show (fs1.files.erase f ++ [fdst]).Nodup
            rw [hfiles1, List.nodup_append]
            refine ⟨hnd.erase f, List.nodup_singleton fdst, ?_⟩
            intro x hx hx1
            rcases List.mem_singleton.mp hx1 with rfl
            exact hfresh (List.erase_subset _ _ hx)
          · show ∀ p ∈ fs1.files.erase f ++ [fdst], p ≠ []
            rw [hfiles1]
            intro p hp
            rcases List.mem_append.mp hp with hp | hp
            · exact hwf p (List.erase_subset _ _ hp)
            · rcases List.mem_singleton.mp hp with rfl
              exact hfdne
          · show ∀ p ∈ fs1.files.erase f ++ [fdst], (rec = true ∨ p.length = 1) →
              (isSkipped mapping other p = true ∨ p ∈ rest)
            rw [hfiles1]
            intro p hp hplen
            rcases List.mem_append.mp hp with hp | hp
            · have hpf : p ∈ fs.files := List.erase_subset _ _ hp
              rcases hinv p hpf hplen with h | h
              · exact Or.inl h
              · rcases List.mem_cons.mp h with rfl | h
                · exact absurd hp ((hnd.mem_erase_iff.mp hp).1 rfl).elim
                · exact Or.inr h
            · rcases List.mem_singleton.mp hp with rfl
              exact Or.inl hskipdst

theorem resolveDst_length (fs : FS) {dst : Fpath} (hdst : dst ≠ []) :
    (resolveDst fs dst).length = dst.length := by
  rcases resolveDst_shape fs dst with h | ⟨i, _, h⟩
  · rw [h]
  · rw [h, candidate_length hdst]

/-! ### The claims -/

/-- C8: classify returns the mapped category when the lower-cased final
extension segment of the path is a key of the map, and the fallback
category otherwise; matching is case-insensitive (two paths whose
lower-cased suffixes agree classify identically), and classify is total. -/
theorem C8_classification (mapping : List (String × String)) (other : String) (p : Fpath) :
    (∀ c, mapping.lookup (lowerStr (suffixOfName (lastName p))) = some c →
      classify p mapping other = c) ∧
    (mapping.lookup (lowerStr (suffixOfName (lastName p))) = none →
      classify p mapping other = other) ∧
    (∀ q : Fpath, lowerStr (suffixOfName (lastName q)) = lowerStr (suffixOfName (lastName p)) →
      classify q mapping other = classify p mapping other) := by
  refine ⟨?_, ?_, ?_⟩
  · intro c h
    unfold classify
    rw [h]
    rfl
  · intro h
    unfold classify
    rw [h]
    rfl
  · intro q h
    unfold classify
    rw [h]

/-- Witness for C8 at concrete inputs: photo.JPG maps to Images, and
classifies exactly like pic.jpg. -/
theorem C8_classification_witness :
    EXT_MAP.lookup (lowerStr (suffixOfName (lastName ["photo.JPG"]))) = some "Images" ∧
    classify ["photo.JPG"] EXT_MAP OTHER_FOLDER = "Images" ∧
    lowerStr (suffixOfName (lastName ["pic.jpg"]))
      = lowerStr (suffixOfName (lastName ["photo.JPG"])) ∧
    classify ["pic.jpg"] EXT_MAP OTHER_FOLDER = classify ["photo.JPG"] EXT_MAP OTHER_FOLDER :=
  ⟨by decide,
   (C8_classification EXT_MAP OTHER_FOLDER ["photo.JPG"]).1 "Images" (by decide),
   by decide,
   (C8_classification EXT_MAP OTHER_FOLDER ["photo.JPG"]).2.2 ["pic.jpg"] (by decide)⟩

/-- C10: a path whose final extension segment is empty (no dot in the
name, or a dotfile) classifies to the fallback category whenever every
map key starts with the extension separator. -/
theorem C10_empty_suffix_fallback (mapping : List (String × String)) (other : String)
    (p : Fpath) (hsuf : suffixOfName (lastName p) = "")
    (hkeys : ∀ kv ∈ mapping, kv.1.data.head? = some '.') :
    classify p mapping other = other := by
  unfold classify
  rw [hsuf]
  have htl : lowerStr "" = "" := rfl
  rw [htl]
  have hnone : mapping.lookup "" = none := by
    rw [List.lookup_eq_none_iff]
    intro kv hkv
    have hs := hkeys kv hkv
    have hne : kv.1 ≠ "" := by
      intro h
      rw [h] at hs
      exact Option.noConfusion hs
    simp only [bne_iff_ne, ne_eq]
    exact fun h => hne h.symm
  rw [hnone]
  rfl

/-- Witness for C10 at a concrete input: the dotfile .gitignore has an
empty suffix and falls back to Others under the shipped mapping. -/
theorem C10_empty_suffix_fallback_witness :
    suffixOfName (lastName [".gitignore"]) = "" ∧
    (∀ kv ∈ EXT_MAP, kv.1.data.head? = some '.') ∧
    classify [".gitignore"] EXT_MAP OTHER_FOLDER = OTHER_FOLDER :=
  ⟨by decide, by decide,
   C10_empty_suffix_fallback EXT_MAP OTHER_FOLDER [".gitignore"] (by decide) (by decide)⟩

/-- C9: a burst of eligible events, each arriving strictly before the
previous event's debounce timer fires, triggers exactly one organizer
run, scheduled one full debounce interval after the last event of the
burst. -/
theorem C9_debounce_coalescing (d : ℚ) (t : ℚ) (ts : List ℚ)
    (hburst : List.Chain (fun a b => a < b ∧ b < a + d) t ts) :
    fireTimes d (t :: ts) = [(t :: ts).getLast (List.cons_ne_nil t ts) + d] := by
  induction ts generalizing t with
  | nil => rfl
  | cons t1 ts ih =>
    rcases List.chain_cons.mp hburst with ⟨⟨_, hlt⟩, hchain⟩
    rw [fireTimes, if_pos hlt, ih t1 hchain]
    rw [List.getLast_cons (List.cons_ne_nil t1 ts)]

/-- Witness for C9 on the specification's example: events at 0, 0.3 and
0.6 with a 1.0 debounce fire exactly once, at 1.6. -/
theorem C9_debounce_coalescing_witness :
    List.Chain (fun a b : ℚ => a < b ∧ b < a + 1) 0 [3/10, 6/10] ∧
    fireTimes 1 [0, 3/10, 6/10] = [8/5] := by
  have hchain : List.Chain (fun a b : ℚ => a < b ∧ b < a + 1) 0 [3/10, 6/10] := by
    norm_num [List.chain_cons]
  refine ⟨hchain, ?_⟩
  rw [C9_debounce_coalescing 1 0 [3/10, 6/10] hchain]
  norm_num

/-- C4 as stated is false: for a path that is not under the root, where
the relative path cannot be computed, the watcher does not ignore the
event (it reacts), while the organize pass's filter rejects the same
path as ineligible. -/
theorem C4_counterexample :
    watcherReacts ["home", "user", "downloads"] false ["etc", "x.txt"] = true ∧
    passEligible ["home", "user", "downloads"] EXT_MAP OTHER_FOLDER ["etc", "x.txt"] = false := by
  decide

/-- C4 amended: for file events on paths under the root — with the
mapping the watcher actually passes to the pass (EXT_MAP) and the shipped
fallback "Others", which the watcher hard-codes — the Watch Loop's
eligibility decision equals the Path Filter decision, and directory
events are always ignored.  For paths not under the root the two
decisions differ: the pass skips them while the watcher reacts. -/
theorem C4_agreement_under_root (target p : Fpath)
    (hunder : target.isPrefixOf p = true) :
    watcherReacts target false p = passEligible target EXT_MAP OTHER_FOLDER p ∧
    watcherReacts target true p = false := by
  constructor
  · unfold watcherReacts passEligible should_ignore
    unfold relativeTo
    rw [if_pos hunder]
    cases hrel : p.drop target.length with
    | nil => rfl
    | cons dcomp q => rfl
  · rfl

/-- Witness for C4's amended agreement at a concrete under-root path. -/
theorem C4_agreement_under_root_witness :
    (["root"] : Fpath).isPrefixOf ["root", "a.txt"] = true ∧
    watcherReacts ["root"] false ["root", "a.txt"]
      = passEligible ["root"] EXT_MAP OTHER_FOLDER ["root", "a.txt"] ∧
    watcherReacts ["root"] true ["root", "a.txt"] = false :=
  ⟨by decide,
   (C4_agreement_under_root ["root"] ["root", "a.txt"] (by decide)).1,
   (C4_agreement_under_root ["root"] ["root", "a.txt"] (by decide)).2⟩

/-- C1 as stated is false: a dry run does mutate the filesystem, because
safe_move creates destination parent directories before testing the
dry-run flag. -/
theorem C1_counterexample :
    (organize ⟨fun _ => false, fun _ _ => false⟩ ⟨[["a.txt"]], []⟩ EXT_MAP OTHER_FOLDER
        true false).1
      ≠ ⟨[["a.txt"]], []⟩ := by decide

/-- C1 amended: a dry run leaves the set of files (count and locations)
unchanged and reports every move as simulated with the requested
destination and no collision resolution; destination parent directories,
however, are created even in dry-run mode, and that creation can itself
raise (FileExistsError on a regular file bearing a category name,
PermissionError), cutting the reported plan short — the file set stays
unchanged even then. -/
theorem C1_dry_run_files_preserved (env : Env) (fs : FS)
    (mapping : List (String × String)) (other : String) (rec : Bool) :
    (organize env fs mapping other true rec).1.files = fs.files ∧
    ∀ o ∈ (organize env fs mapping other true rec).2.1,
      o.simulated = true ∧ o.final = o.requested := by
  obtain ⟨h1, h3⟩ := organizeFrom_dry env mapping other rec (find_files fs rec) fs []
  refine ⟨h1, ?_⟩
  intro o ho
  rcases h3 o ho with h | h
  · simp at h
  · exact h

/-- Witness for C1's amended theorem at a concrete input. -/
theorem C1_dry_run_files_preserved_witness :
    (⟨["a.txt"], ["Documents", "a.txt"], ["Documents", "a.txt"], true⟩ : MoveOutcome)
      ∈ (organize ⟨fun _ => false, fun _ _ => false⟩ ⟨[["a.txt"]], []⟩ EXT_MAP OTHER_FOLDER
        true false).2.1 ∧
    ((⟨["a.txt"], ["Documents", "a.txt"], ["Documents", "a.txt"], true⟩ : MoveOutcome).simulated
        = true ∧
      (⟨["a.txt"], ["Documents", "a.txt"], ["Documents", "a.txt"], true⟩ : MoveOutcome).final
        = (⟨["a.txt"], ["Documents", "a.txt"], ["Documents", "a.txt"], true⟩ : MoveOutcome).requested) :=
  ⟨by decide,
   (C1_dry_run_files_preserved ⟨fun _ => false, fun _ _ => false⟩ ⟨[["a.txt"]], []⟩ EXT_MAP
     OTHER_FOLDER false).2 _ (by decide)⟩

/-- C2 as stated is false: when the move of the first enumerated file
fails, the exception propagates out of the loop, no per-file result entry
is recorded, and the remaining files of the pass are not processed. -/
theorem C2_counterexample :
    organize ⟨fun _ => false, fun _ _ => true⟩ ⟨[["a.pdf"], ["b.jpg"]], []⟩ EXT_MAP
        OTHER_FOLDER false false
      = (⟨[["a.pdf"], ["b.jpg"]], [["Documents"]]⟩, [], some "move failed") := by
  decide

/-- C2 amended: only the relative-path computation is guarded per file;
an exception from the mover propagates and aborts the remainder of the
pass: when the first enumerated file is eligible, its destination parent
creation succeeds (no prefix occupied by a regular file, no permission
failure) and the move itself raises, the pass ends with that exception,
records no outcome, and moves no file. -/
theorem C2_move_failure_aborts (env : Env) (fs : FS) (mapping : List (String × String))
    (other : String) (rec : Bool) (f : Fpath) (rest : List Fpath)
    (hfind : find_files fs rec = f :: rest)
    (hskip : isSkipped mapping other f = false)
    (hmkenv : ∀ d, env.mkdirFails d = false)
    (hnofile : ∀ q ∈ prefixesOf (destinationFor rec (classify f mapping other) f).dropLast,
      q ∉ fs.files)
    (hfail : ∀ d, env.moveFails f d = true) :
    (organize env fs mapping other false rec).2.1 = [] ∧
    (organize env fs mapping other false rec).2.2 = some "move failed" ∧
    (organize env fs mapping other false rec).1.files = fs.files := by
  have hmk : mkdirParents env fs (destinationFor rec (classify f mapping other) f).dropLast
      = Except.ok (fs.applyMkdir (destinationFor rec (classify f mapping other) f).dropLast) :=
    mkdirParents_conds hnofile (hmkenv _)
  unfold organize
  rw [hfind, organizeFrom, if_neg (by simp [hskip]), safe_move_real_ok f hmk,
    if_pos (hfail _)]
  exact ⟨rfl, rfl, rfl⟩

/-- Witness for C2's amended theorem at a concrete input. -/
theorem C2_move_failure_aborts_witness :
    find_files ⟨[["a.pdf"], ["b.jpg"]], []⟩ false = [["a.pdf"], ["b.jpg"]] ∧
    isSkipped EXT_MAP OTHER_FOLDER ["a.pdf"] = false ∧
    (∀ d, (⟨fun _ => false, fun _ _ => true⟩ : Env).mkdirFails d = false) ∧
    (∀ q ∈ prefixesOf (destinationFor false (classify ["a.pdf"] EXT_MAP OTHER_FOLDER)
        ["a.pdf"]).dropLast, q ∉ (⟨[["a.pdf"], ["b.jpg"]], []⟩ : FS).files) ∧
    (∀ d, (⟨fun _ => false, fun _ _ => true⟩ : Env).moveFails ["a.pdf"] d = true) ∧
    ((organize ⟨fun _ => false, fun _ _ => true⟩ ⟨[["a.pdf"], ["b.jpg"]], []⟩ EXT_MAP
        OTHER_FOLDER false false).2.1 = [] ∧
      (organize ⟨fun _ => false, fun _ _ => true⟩ ⟨[["a.pdf"], ["b.jpg"]], []⟩ EXT_MAP
        OTHER_FOLDER false false).2.2 = some "move failed" ∧
      (organize ⟨fun _ => false, fun _ _ => true⟩ ⟨[["a.pdf"], ["b.jpg"]], []⟩ EXT_MAP
        OTHER_FOLDER false false).1.files = (⟨[["a.pdf"], ["b.jpg"]], []⟩ : FS).files) :=
  ⟨by decide, by decide, fun _ => rfl, by decide, fun _ => rfl,
   C2_move_failure_aborts ⟨fun _ => false, fun _ _ => true⟩ ⟨[["a.pdf"], ["b.jpg"]], []⟩
     EXT_MAP OTHER_FOLDER false ["a.pdf"] [["b.jpg"]] (by decide) (by decide)
     (fun _ => rfl) (by decide) (fun _ => rfl)⟩

/-- Shape of every outcome a pass can add to its report: the final path
starts with a destination-folder name and shares its parent directory
with the requested path. -/
theorem organizeFrom_outcome_shape (env : Env) (mapping : List (String × String))
    (other : String) (dry rec : Bool) :
    ∀ (l : List Fpath) (fs : FS) (outs : List MoveOutcome),
      ∀ o ∈ (organizeFrom env mapping other dry rec l fs outs).2.1,
        o ∈ outs ∨
        ((∃ d ∈ destFolderNames mapping other, ∃ q, o.final = d :: q) ∧
          o.final.dropLast = o.requested.dropLast) := by
  intro l
  induction l with
  | nil => intro fs outs o ho; exact Or.inl ho
  | cons f rest ih =>
    intro fs outs o
    rw [organizeFrom]
    by_cases hf : isSkipped mapping other f
    · rw [if_pos hf]
      exact ih fs outs o
    · rw [if_neg hf]
      obtain ⟨q0, hq0ne, hsh⟩ := destinationFor_shape rec (classify f mapping other) f
      cases hmk : mkdirParents env fs
          (destinationFor rec (classify f mapping other) f).dropLast with
      | error e =>
        rw [safe_move_mkdir_fail f dry hmk]
        intro ho
        exact Or.inl ho
      | ok fs1 =>
        cases dry with
        | true =>
          rw [safe_move_dry_ok f hmk]
          intro ho
          rcases ih _ _ o ho with hmem | hgood
          · rcases List.mem_append.mp hmem with h | h
            · exact Or.inl h
            · rcases List.mem_singleton.mp h with rfl
              exact Or.inr ⟨⟨classify f mapping other,
                classify_mem_destFolderNames f mapping other, q0, hsh⟩, rfl⟩
          · exact Or.inr hgood
        | false =>
          rw [safe_move_real_ok f hmk]
          by_cases hfail : env.moveFails f
              (resolveDst fs1 (destinationFor rec (classify f mapping other) f))
          · rw [if_pos hfail]
            intro ho
            exact Or.inl ho
          · rw [if_neg hfail]
            intro ho
            rcases ih _ _ o ho with hmem | hgood
            · rcases List.mem_append.mp hmem with h | h
              · exact Or.inl h
              · rcases List.mem_singleton.mp h with rfl
                refine Or.inr ⟨⟨classify f mapping other,
                  classify_mem_destFolderNames f mapping other, ?_⟩, ?_⟩
                · show ∃ q, resolveDst fs1 (destinationFor rec (classify f mapping other) f)
                    = classify f mapping other :: q
                  rw [hsh]
                  exact resolveDst_head fs1 (classify f mapping other) hq0ne
                · exact resolveDst_dropLast _ _
            · exact Or.inr hgood

/-- C5: a file already located under a destination-category folder is
marked ineligible by the filter, and any pass — dry or real, recursive or
not — leaves it in place. -/
theorem C5_anti_loop (env : Env) (fs : FS) (mapping : List (String × String))
    (other : String) (dry rec : Bool) (D : String) (rest : Fpath)
    (hD : D ∈ destFolderNames mapping other) (hmem : (D :: rest) ∈ fs.files) :
    isSkipped mapping other (D :: rest) = true ∧
    (D :: rest) ∈ (organize env fs mapping other dry rec).1.files := by
  have hskip : isSkipped mapping other (D :: rest) = true := by
    rw [isSkipped_cons]
    simpa using hD
  exact ⟨hskip,
    organizeFrom_keeps_skipped env mapping other dry rec (find_files fs rec) fs [] _ hskip hmem⟩

/-- Witness for C5 at a concrete input: Images/x.pdf is skipped and
survives a real recursive pass. -/
theorem C5_anti_loop_witness :
    "Images" ∈ destFolderNames EXT_MAP OTHER_FOLDER ∧
    ["Images", "x.pdf"]
      ∈ (⟨[["Images", "x.pdf"], ["y.txt"]], [["Images"]]⟩ : FS).files ∧
    isSkipped EXT_MAP OTHER_FOLDER ["Images", "x.pdf"] = true ∧
    ["Images", "x.pdf"] ∈ (organize ⟨fun _ => false, fun _ _ => false⟩
        ⟨[["Images", "x.pdf"], ["y.txt"]], [["Images"]]⟩ EXT_MAP OTHER_FOLDER
        false true).1.files :=
  ⟨by decide, by decide,
   (C5_anti_loop ⟨fun _ => false, fun _ _ => false⟩ ⟨[["Images", "x.pdf"], ["y.txt"]], [["Images"]]⟩ EXT_MAP
     OTHER_FOLDER false true "Images" ["x.pdf"] (by decide) (by decide)).1,
   (C5_anti_loop ⟨fun _ => false, fun _ _ => false⟩ ⟨[["Images", "x.pdf"], ["y.txt"]], [["Images"]]⟩ EXT_MAP
     OTHER_FOLDER false true "Images" ["x.pdf"] (by decide) (by decide)).2⟩

/-- C6: every outcome of a pass (dry or real, recursive or not) has a
final destination path whose first component is a destination-category
name, and collision resolution changes only the file name, never the
parent directory. -/
theorem C6_destination_taxonomy (env : Env) (fs : FS) (mapping : List (String × String))
    (other : String) (dry rec : Bool) :
    ∀ o ∈ (organize env fs mapping other dry rec).2.1,
      (∃ d ∈ destFolderNames mapping other, ∃ q, o.final = d :: q) ∧
      o.final.dropLast = o.requested.dropLast := by
  intro o ho
  rcases organizeFrom_outcome_shape env mapping other dry rec (find_files fs rec) fs [] o ho
    with h | h
  · simp at h
  · exact h

/-- Witness for C6 at a concrete input with a collision: the resolved
destination Documents/a(1).txt still lies under Documents. -/
theorem C6_destination_taxonomy_witness :
    (⟨["a.txt"], ["Documents", "a.txt"], ["Documents", "a(1).txt"], false⟩ : MoveOutcome)
      ∈ (organize ⟨fun _ => false, fun _ _ => false⟩ ⟨[["a.txt"], ["Documents", "a.txt"]], [["Documents"]]⟩
          EXT_MAP OTHER_FOLDER false false).2.1 ∧
    ((∃ d ∈ destFolderNames EXT_MAP OTHER_FOLDER, ∃ q,
        (⟨["a.txt"], ["Documents", "a.txt"], ["Documents", "a(1).txt"], false⟩
          : MoveOutcome).final = d :: q) ∧
      (⟨["a.txt"], ["Documents", "a.txt"], ["Documents", "a(1).txt"], false⟩
          : MoveOutcome).final.dropLast
        = (⟨["a.txt"], ["Documents", "a.txt"], ["Documents", "a(1).txt"], false⟩
          : MoveOutcome).requested.dropLast) :=
  ⟨by decide,
   C6_destination_taxonomy ⟨fun _ => false, fun _ _ => false⟩
     ⟨[["a.txt"], ["Documents", "a.txt"]], [["Documents"]]⟩ EXT_MAP OTHER_FOLDER false false
     _ (by decide)⟩

/-- C3: idempotence of real mode: after a successful real pass, a second
real pass on the resulting tree (same mapping, same fallback, no external
changes) enumerates only already-organized files, moves zero files and
returns the tree unchanged. -/
theorem C3_idempotent (env : Env) (fs : FS) (mapping : List (String × String))
    (other : String) (rec : Bool)
    (hnd : fs.files.Nodup) (hwf : ∀ p ∈ fs.files, p ≠ [])
    (hok : (organize env fs mapping other false rec).2.2 = none) :
    organize env (organize env fs mapping other false rec).1 mapping other false rec
      = ((organize env fs mapping other false rec).1, [], none) := by
  have hok' : (organizeFrom env mapping other false rec (find_files fs rec) fs []).2.2
      = none := hok
  have hall := organizeFrom_preserves env mapping other rec (find_files fs rec) fs []
    hnd hwf (find_files_nodup hnd)
    (fun g hg => by
      rcases mem_find_files.mp hg with ⟨hmem, hlen⟩
      exact ⟨hwf g hmem, hlen⟩)
    (fun p hp hlen => Or.inr (mem_find_files.mpr ⟨hp, hlen⟩))
    hok'
  unfold organize
  apply organizeFrom_all_skipped
  intro g hg
  rcases mem_find_files.mp hg with ⟨hmem, hlen⟩
  exact hall g hmem hlen

/-- Witness for C3 at the specification's own scenario. -/
theorem C3_idempotent_witness :
    (⟨[["a.pdf"], ["b.jpg"], ["c.unknownext"]], []⟩ : FS).files.Nodup ∧
    (∀ p ∈ (⟨[["a.pdf"], ["b.jpg"], ["c.unknownext"]], []⟩ : FS).files, p ≠ []) ∧
    (organize ⟨fun _ => false, fun _ _ => false⟩ ⟨[["a.pdf"], ["b.jpg"], ["c.unknownext"]], []⟩ EXT_MAP
      OTHER_FOLDER false false).2.2 = none ∧
    organize ⟨fun _ => false, fun _ _ => false⟩
        (organize ⟨fun _ => false, fun _ _ => false⟩ ⟨[["a.pdf"], ["b.jpg"], ["c.unknownext"]], []⟩ EXT_MAP
          OTHER_FOLDER false false).1 EXT_MAP OTHER_FOLDER false false
      = ((organize ⟨fun _ => false, fun _ _ => false⟩ ⟨[["a.pdf"], ["b.jpg"], ["c.unknownext"]], []⟩ EXT_MAP
          OTHER_FOLDER false false).1, [], none) :=
  ⟨by decide, by decide, by decide,
   C3_idempotent ⟨fun _ => false, fun _ _ => false⟩ ⟨[["a.pdf"], ["b.jpg"], ["c.unknownext"]], []⟩ EXT_MAP
     OTHER_FOLDER false (by decide) (by decide) (by decide)⟩

/-- C7: in real mode, when the requested destination already exists, the
move resolves to the parenthesised-index candidate with the smallest
index whose path does not exist; the resolved path never overwrites an
existing path, and a second move requesting the same destination resolves
to a different, again fresh, path. -/
theorem C7_collision_resolution (env : Env) (fs : FS) (src1 src2 dst : Fpath)
    (henv : ∀ s d, env.moveFails s d = false)
    (hmkenv : ∀ d, env.mkdirFails d = false)
    (hpre : ∀ q ∈ prefixesOf dst.dropLast, q ∉ fs.files)
    (hdst : dst ≠ []) (hex : fs.existsPath dst = true) :
    ∃ o1 o2 : MoveOutcome,
      (safe_move env fs src1 dst false).2 = Except.ok o1 ∧
      (safe_move env (safe_move env fs src1 dst false).1 src2 dst false).2 = Except.ok o2 ∧
      (∃ i, 1 ≤ i ∧ o1.final = candidate dst i ∧
        fs.existsPath (candidate dst i) = false ∧
        ∀ j, 1 ≤ j → j < i → fs.existsPath (candidate dst j) = true) ∧
      fs.existsPath o1.final = false ∧
      (safe_move env fs src1 dst false).1.existsPath o2.final = false ∧
      o1.final ≠ o2.final := by
  have hdstlen : 0 < dst.length := List.length_pos.mpr hdst
  have hdroplen : dst.dropLast.length < dst.length := by
    rw [List.length_dropLast]; omega
  have hmk1 : mkdirParents env fs dst.dropLast = Except.ok (fs.applyMkdir dst.dropLast) :=
    mkdirParents_conds hpre (hmkenv _)
  have hmove1 : safe_move env fs src1 dst false
      = ({ fs.applyMkdir dst.dropLast with
            files := (fs.applyMkdir dst.dropLast).files.erase src1
              ++ [resolveDst (fs.applyMkdir dst.dropLast) dst] },
          Except.ok ⟨src1, dst, resolveDst (fs.applyMkdir dst.dropLast) dst, false⟩) := by
    rw [safe_move_real_ok src1 hmk1, if_neg (by simp [henv])]
  rw [hmove1]
  dsimp only
  set fs2 : FS := { fs.applyMkdir dst.dropLast with
      files := (fs.applyMkdir dst.dropLast).files.erase src1
        ++ [resolveDst (fs.applyMkdir dst.dropLast) dst] } with hfs2
  have hpre2 : ∀ q ∈ prefixesOf dst.dropLast, q ∉ fs2.files := by
    intro q hq hqmem
    rw [hfs2] at hqmem
    rcases List.mem_append.mp hqmem with hm | hm
    · exact hpre q hq (List.erase_subset _ _ hm)
    · rcases List.mem_singleton.mp hm with rfl
      have hlq := prefixesOf_length_le hq
      have hlf : (resolveDst (fs.applyMkdir dst.dropLast) dst).length = dst.length :=
        resolveDst_length _ hdst
      omega
  have hmk2 : mkdirParents env fs2 dst.dropLast = Except.ok (fs2.applyMkdir dst.dropLast) :=
    mkdirParents_conds hpre2 (hmkenv _)
  have hmove2 : safe_move env fs2 src2 dst false
      = ({ fs2.applyMkdir dst.dropLast with
            files := (fs2.applyMkdir dst.dropLast).files.erase src2
              ++ [resolveDst (fs2.applyMkdir dst.dropLast) dst] },
          Except.ok ⟨src2, dst, resolveDst (fs2.applyMkdir dst.dropLast) dst, false⟩) := by
    rw [safe_move_real_ok src2 hmk2, if_neg (by simp [henv])]
  rw [hmove2]
  dsimp only
  refine ⟨⟨src1, dst, resolveDst (fs.applyMkdir dst.dropLast) dst, false⟩,
    ⟨src2, dst, resolveDst (fs2.applyMkdir dst.dropLast) dst, false⟩, rfl, rfl, ?_, ?_, ?_, ?_⟩
  · -- least-index characterisation of the first resolution
    have hex1 : (fs.applyMkdir dst.dropLast).existsPath dst = true :=
      existsPath_applyMkdir_mono fs _ dst hex
    obtain ⟨k, hk, hfree0⟩ := exists_free_candidate (fs.applyMkdir dst.dropLast) dst
    obtain ⟨k2, _, hval, hfree, hmin⟩ :=
      searchFrom_spec (fs.applyMkdir dst.dropLast) dst
        ((fs.applyMkdir dst.dropLast).files.length
          + (fs.applyMkdir dst.dropLast).dirs.length + 1) 1 ⟨k, hk, hfree0⟩
    have htrans : ∀ i, (fs.applyMkdir dst.dropLast).existsPath (candidate dst i)
        = fs.existsPath (candidate dst i) := by
      intro i
      apply existsPath_applyMkdir
      rw [candidate_length hdst]
      omega
    refine ⟨1 + k2, by omega, ?_, ?_, ?_⟩
    · show resolveDst (fs.applyMkdir dst.dropLast) dst = candidate dst (1 + k2)
      rw [resolveDst, if_pos hex1]
      exact hval
    · rw [← htrans]
      exact hfree
    · intro j hj1 hj2
      have hm := hmin (j - 1) (by omega)
      rw [show 1 + (j - 1) = j by omega] at hm
      rw [← htrans]
      exact hm
  · -- the first resolved path is fresh in the original filesystem
    have hfresh := resolveDst_fresh (fs.applyMkdir dst.dropLast) dst
    have hlen : (resolveDst (fs.applyMkdir dst.dropLast) dst).length = dst.length :=
      resolveDst_length _ hdst
    show fs.existsPath (resolveDst (fs.applyMkdir dst.dropLast) dst) = false
    rw [← existsPath_applyMkdir fs dst.dropLast _ (by omega : dst.dropLast.length <
      (resolveDst (fs.applyMkdir dst.dropLast) dst).length)]
    exact hfresh
  · -- the second resolved path is fresh in the filesystem after move one
    have hfresh := resolveDst_fresh (fs2.applyMkdir dst.dropLast) dst
    have hlen : (resolveDst (fs2.applyMkdir dst.dropLast) dst).length = dst.length :=
      resolveDst_length _ hdst
    show fs2.existsPath (resolveDst (fs2.applyMkdir dst.dropLast) dst) = false
    rw [← existsPath_applyMkdir fs2 dst.dropLast _ (by omega : dst.dropLast.length <
      (resolveDst (fs2.applyMkdir dst.dropLast) dst).length)]
    exact hfresh
  · -- the two resolved paths differ: the first now exists
    intro heq
    have heq' : resolveDst (fs.applyMkdir dst.dropLast) dst
        = resolveDst (fs2.applyMkdir dst.dropLast) dst := heq
    have hmem1 : resolveDst (fs.applyMkdir dst.dropLast) dst ∈ fs2.files := by
      rw [hfs2]
      exact List.mem_append_right _ (List.mem_singleton.mpr rfl)
    have hex2 : fs2.existsPath (resolveDst (fs.applyMkdir dst.dropLast) dst) = true :=
      (existsPath_true_iff fs2 _).mpr (Or.inl hmem1)
    have hfresh := resolveDst_fresh (fs2.applyMkdir dst.dropLast) dst
    have hlen : (resolveDst (fs2.applyMkdir dst.dropLast) dst).length = dst.length :=
      resolveDst_length _ hdst
    have hfr2 : fs2.existsPath (resolveDst (fs2.applyMkdir dst.dropLast) dst) = false := by
      rw [← existsPath_applyMkdir fs2 dst.dropLast _ (by omega : dst.dropLast.length <
        (resolveDst (fs2.applyMkdir dst.dropLast) dst).length)]
      exact hfresh
    rw [heq', hfr2] at hex2
    exact Bool.noConfusion hex2

/-- Witness for C7 at a concrete input: with Documents/a.txt occupied and
two further moves both requesting that destination, the moves succeed and
resolve to distinct fresh parenthesised names. -/
theorem C7_collision_resolution_witness :
    (∀ s d, (⟨fun _ => false, fun _ _ => false⟩ : Env).moveFails s d = false) ∧
    (∀ d, (⟨fun _ => false, fun _ _ => false⟩ : Env).mkdirFails d = false) ∧
    (∀ q ∈ prefixesOf (["Documents", "a.txt"] : Fpath).dropLast,
      q ∉ (⟨[["Documents", "a.txt"], ["b.txt"], ["c.txt"]], [["Documents"]]⟩ : FS).files) ∧
    (["Documents", "a.txt"] : Fpath) ≠ [] ∧
    (⟨[["Documents", "a.txt"], ["b.txt"], ["c.txt"]], [["Documents"]]⟩ : FS).existsPath
      ["Documents", "a.txt"] = true ∧
    (∃ o1 o2 : MoveOutcome,
      (safe_move ⟨fun _ => false, fun _ _ => false⟩
        ⟨[["Documents", "a.txt"], ["b.txt"], ["c.txt"]], [["Documents"]]⟩ ["b.txt"]
        ["Documents", "a.txt"] false).2 = Except.ok o1 ∧
      (safe_move ⟨fun _ => false, fun _ _ => false⟩
        (safe_move ⟨fun _ => false, fun _ _ => false⟩
          ⟨[["Documents", "a.txt"], ["b.txt"], ["c.txt"]], [["Documents"]]⟩ ["b.txt"]
          ["Documents", "a.txt"] false).1 ["c.txt"]
        ["Documents", "a.txt"] false).2 = Except.ok o2 ∧
      (∃ i, 1 ≤ i ∧ o1.final = candidate ["Documents", "a.txt"] i ∧
        (⟨[["Documents", "a.txt"], ["b.txt"], ["c.txt"]], [["Documents"]]⟩ : FS).existsPath
          (candidate ["Documents", "a.txt"] i) = false ∧
        ∀ j, 1 ≤ j → j < i →
          (⟨[["Documents", "a.txt"], ["b.txt"], ["c.txt"]], [["Documents"]]⟩ : FS).existsPath
            (candidate ["Documents", "a.txt"] j) = true) ∧
      (⟨[["Documents", "a.txt"], ["b.txt"], ["c.txt"]], [["Documents"]]⟩ : FS).existsPath
        o1.final = false ∧
      (safe_move ⟨fun _ => false, fun _ _ => false⟩
        ⟨[["Documents", "a.txt"], ["b.txt"], ["c.txt"]], [["Documents"]]⟩ ["b.txt"]
        ["Documents", "a.txt"] false).1.existsPath o2.final = false ∧
      o1.final ≠ o2.final) :=
  ⟨fun _ _ => rfl, fun _ => rfl, by decide, by decide, by decide,
   C7_collision_resolution ⟨fun _ => false, fun _ _ => false⟩
     ⟨[["Documents", "a.txt"], ["b.txt"], ["c.txt"]], [["Documents"]]⟩ ["b.txt"] ["c.txt"]
     ["Documents", "a.txt"] (fun _ _ => rfl) (fun _ => rfl) (by decide) (by decide)
     (by decide)⟩

end AutoOrg
